import Mathlib

/-!
Verification of the `youtube-audio-bg` facade library.

The repository contains two variants of the same facade:

* `src/unnamed/part_000` — a class-based variant with a name-keyed listener
  registry (`_listenersByName`), auto-incrementing per-event listener ids and
  per-listener invocation budgets (`on` / `off` / `trigger`), and readiness
  recorded by storing the widget's ready arguments (`_readyArguments`).
* `src/YouTubeAudio.js` — a prototype-based variant with fixed per-event
  callback arrays, a readiness gate that installs self-removing guards over the
  transport methods in `init`, a mod-wrapped playlist index (`mod`, `playNext`,
  `playPrevious`, `setSources`), and its own `parseVideoId` regex.

Both variants are embedded shallowly below: JS arrays become Lean lists, JS
numbers used as listener limits become an explicit finite/infinite budget
type, JS strings become `String`/`List Char`, exceptions become explicit
outcome constructors, and the `setTimeout(() => \x7b throw e \x7d)` pattern used
to defer handler faults becomes an explicit list of deferred errors.

`VB` holds the class-based variant, `VA` the prototype-based one.
-/

namespace VB

/-- Invocation budget of a listener.  In the source this is a JS number that
is either a finite value (the `opt_limit` argument of `on`) or the default
`Infinity`; `limit--` leaves `Infinity` unchanged. -/
inductive Budget where
  | fin (n : Int)
  | inf
deriving DecidableEq, Repr

/-- Truth value of the JS test `0 < listener.limit`. -/
def Budget.isPos : Budget → Bool
  | .fin n => decide (0 < n)
  | .inf => true

/-- Effect of the JS post-decrement `listener.limit--` on the stored limit. -/
def Budget.dec : Budget → Budget
  | .fin n => .fin (n - 1)
  | .inf => .inf

/-- One record of `_listenersByName[eventName]`: the numeric property key
`id`, the remaining `limit` and the `handler` function (kept opaque as a
value of type `H`). -/
structure Listener (H : Type) where
  id : Nat
  limit : Budget
  handler : H
deriving Repr, DecidableEq

/-- The per-event object `_listenersByName[eventName]`: its `nextId` counter
plus the listener records stored under numeric keys.  JS `for...in` visits
integer-like keys in ascending numeric order and `on` assigns increasing ids,
so the `records` list is kept in registration order. -/
structure EvGroup (H : Type) where
  nextId : Nat
  records : List (Listener H)
deriving Repr, DecidableEq

/-- The `_listenersByName` dictionary, keyed by event name. -/
abbrev Registry (H : Type) : Type := List (String × EvGroup H)

/-- Dictionary lookup `_listenersByName[name]` (`undefined` becomes `none`). -/
def getEv {H : Type} : Registry H → String → Option (EvGroup H)
  | [], _ => none
  | (k, v) :: rest, n => if k = n then some v else getEv rest n

/-- Dictionary update `_listenersByName[name] = g`. -/
def setEv {H : Type} : Registry H → String → EvGroup H → Registry H
  | [], n, g => [(n, g)]
  | (k, v) :: rest, n, g => if k = n then (n, g) :: rest else (k, v) :: setEv rest n g

/-- Decimal digit character, as produced when a JS number is used as an
object property key or concatenated into a string. -/
def digitChar : Nat → Char
  | 0 => '0'
  | 1 => '1'
  | 2 => '2'
  | 3 => '3'
  | 4 => '4'
  | 5 => '5'
  | 6 => '6'
  | 7 => '7'
  | 8 => '8'
  | _ => '9'

/-- Fuel-driven digit expansion (structural recursion so that concrete
handles reduce inside the kernel); `fuel` bounds the number of digits. -/
def natCharsAux : Nat → Nat → List Char
  | 0, _ => []
  | fuel + 1, n =>
    if n < 10 then [digitChar n]
    else natCharsAux fuel (n / 10) ++ [digitChar (n % 10)]

/-- Decimal representation of a listener id, as used for the object property
key and inside the `eventName + ':' + id` handle string; `n + 1` is always
enough fuel since a number has at most `n + 1` digits. -/
def natChars (n : Nat) : List Char :=
  natCharsAux (n + 1) n

/-- JS `listenerId.split(':', 2)`: the segment before the first `':'` and the
segment between the first and second `':'` (the rest is discarded by the
limit argument `2`). -/
def splitColon2 (s : List Char) : List Char × List Char :=
  (s.takeWhile (fun c => !(c == ':')),
   ((s.dropWhile (fun c => !(c == ':'))).drop 1).takeWhile (fun c => !(c == ':')))

/-- Output of one `trigger` dispatch over an event's records: the surviving
records, the ids whose handlers were invoked (in iteration order), and the
handler exceptions that were re-thrown from a `setTimeout` (the deferred
top-level error channel). -/
structure DispatchOut (H E : Type) where
  records : List (Listener H)
  invoked : List Nat
  deferred : List E
deriving Repr, DecidableEq

/-- Loop body of `trigger` over the records of one event, in key order:
`if (0 < listener.limit--)` invoke the handler inside `try/catch` (a caught
exception is deferred, not re-raised synchronously), else remove the record
via `off`.  `runH` gives each opaque handler's behaviour: normal return or a
thrown exception. -/
def dispatchRecords {H E : Type} (runH : H → Except E Unit) :
    List (Listener H) → DispatchOut H E
  | [] => ⟨[], [], []⟩
  | l :: ls =>
    let rest := dispatchRecords runH ls
    if l.limit.isPos then
      match runH l.handler with
      | .ok _ => ⟨{ l with limit := l.limit.dec } :: rest.records, l.id :: rest.invoked, rest.deferred⟩
      | .error e => ⟨{ l with limit := l.limit.dec } :: rest.records, l.id :: rest.invoked, e :: rest.deferred⟩
    else ⟨rest.records, rest.invoked, rest.deferred⟩

/-- The `trigger(eventName, args)` method: if no listener group exists it
returns at once, otherwise it walks the group's records. -/
def trigger {H E : Type} (runH : H → Except E Unit) (reg : Registry H)
    (name : String) : Registry H × List Nat × List E :=
  match getEv reg name with
  | none => (reg, [], [])
  | some g =>
    let out := dispatchRecords runH g.records
    (setEv reg name ⟨g.nextId, out.records⟩, out.invoked, out.deferred)

/-- A sequence of `trigger` calls; the log pairs each triggered event name
with the ids invoked during that dispatch. -/
def runTriggers {H E : Type} (runH : H → Except E Unit) :
    Registry H → List String → Registry H × List (String × List Nat)
  | reg, [] => (reg, [])
  | reg, n :: ns =>
    let t := trigger runH reg n
    let rest := runTriggers runH t.1 ns
    (rest.1, (n, t.2.1) :: rest.2)

/-- State of a class-variant instance, restricted to the fields the event
registry touches: `_listenersByName` and `_readyArguments` (absent until the
widget's `onReady` fires, then holding the ready payload). -/
structure YtaState (H P : Type) where
  listenersByName : Registry H
  readyArguments : Option P

/-- The handle string `eventName + ':' + id` returned by `on`. -/
def mkHandle (eventName : String) (id : Nat) : String :=
  String.mk (eventName.data ++ ':' :: natChars id)

/-- The `on(eventName, callback, opt_limit)` method (`on` is a reserved Lean
token, hence the name `onEv`).  A record with key
`nextId` is appended and `nextId` incremented.  If the event is `"ready"`
and `_readyArguments` is already stored, `if (0 < listener.limit--)` fires
the callback immediately with the stored arguments — the stored limit is
post-decremented whether or not the test passes.  The result is the new
state, the returned handle, and `some payload` when the callback was invoked
immediately (its possible exception is deferred, as in `trigger`). -/
def onEv {H P : Type} (s : YtaState H P) (eventName : String) (callback : H)
    (limit : Budget) : YtaState H P × String × Option P :=
  let g := (getEv s.listenersByName eventName).getD ⟨1, []⟩
  let id := g.nextId
  let replay := decide (eventName = "ready") && s.readyArguments.isSome
  let storedLimit := if replay then limit.dec else limit
  let reg' := setEv s.listenersByName eventName
      ⟨id + 1, g.records ++ [⟨id, storedLimit, callback⟩]⟩
  ({ s with listenersByName := reg' }, mkHandle eventName id,
    if replay && limit.isPos then s.readyArguments else none)

/-- Result of `off`: the removed handler, or the TypeError raised by reading
a property of `undefined` when the handle matches nothing. -/
inductive OffResult (H : Type) where
  | removed (h : H)
  | jsTypeError
deriving Repr, DecidableEq

/-- The `off(listenerId)` method.  The handle is split at `':'`; if the event
name keys no group, `_listenersByName[eventName][id]` throws a TypeError; if
the group exists but no record has the id key, `delete` is a no-op and
`listener.handler` throws a TypeError; otherwise the record is deleted and
its handler returned.  (The bookkeeping counter `nextId` is held outside the
keyed records in this model, so it is not a removable key; handles produced
by `on` never name it.) -/
def off {H : Type} (reg : Registry H) (listenerId : String) :
    Registry H × OffResult H :=
  let parts := splitColon2 listenerId.data
  match getEv reg (String.mk parts.1) with
  | none => (reg, .jsTypeError)
  | some g =>
    match g.records.find? (fun l => natChars l.id == parts.2) with
    | some l =>
      (setEv reg (String.mk parts.1)
        ⟨g.nextId, g.records.filter (fun x => !(natChars x.id == parts.2))⟩,
       .removed l.handler)
    | none => (reg, .jsTypeError)

/-- Remaining limit of the record keyed `i` in a record list (`none` when the
record is absent). -/
def recState {H : Type} (rs : List (Listener H)) (i : Nat) : Option Budget :=
  (rs.find? (fun l => l.id == i)).map (·.limit)

/-- Remaining limit of listener `i` of event `e` in the registry. -/
def listState {H : Type} (reg : Registry H) (e : String) (i : Nat) : Option Budget :=
  (getEv reg e).bind (fun g => recState g.records i)

/-- Ids of the records registered for event `e`. -/
def idsAt {H : Type} (reg : Registry H) (e : String) : List Nat :=
  ((getEv reg e).map (fun g => g.records.map (·.id))).getD []

/-- Number of invocations of listener `i` of event `e` recorded in a
`runTriggers` log. -/
def invCount : List (String × List Nat) → String → Nat → Nat
  | [], _, _ => 0
  | (n, inv) :: rest, e, i => (if n = e then inv.count i else 0) + invCount rest e i

/-- Characters counted by the regex class `[\\w\\-]` (ASCII word characters
and the hyphen). -/
def isWordChar (c : Char) : Bool :=
  c.isAlphanum || c == '_' || c == '-'

/-- Prefix match for `^https?\\:\\/\\/` of the class-variant `parseVideoId`
regex: strips `https://` or `http://`, failing otherwise. -/
def stripHttpPrefix : List Char → Option (List Char)
  | 'h' :: 't' :: 't' :: 'p' :: 's' :: ':' :: '/' :: '/' :: r => some r
  | 'h' :: 't' :: 't' :: 'p' :: ':' :: '/' :: '/' :: r => some r
  | _ => none

/-- Prefix match for the first alternative `youtu\\.be\\/` (the dot is
escaped in this variant's regex). -/
def stripYoutuBe : List Char → Option (List Char)
  | 'y' :: 'o' :: 'u' :: 't' :: 'u' :: '.' :: 'b' :: 'e' :: '/' :: r => some r
  | _ => none

/-- Attempt of branch 2's body at one position: after the `[?&]` character,
the text must continue `v=` and the remaining suffix must be a non-empty
all-word-character capture reaching the end of the string. -/
def vEqCheck : List Char → Option (List Char)
  | c1 :: c2 :: r =>
    if c1 == 'v' && c2 == '=' then
      if !r.isEmpty && r.all isWordChar then some r else none
    else none
  | _ => none

/-- Backtracking search of `[^]+[\\?&]v=([\\w\\-]+)$`: the greedy `[^]+`
selects the LAST position holding `?v=` or `&v=` whose remaining suffix is a
non-empty all-word-character capture reaching the end of the string.  The
recursion prefers a deeper (later) match, mirroring greedy backtracking. -/
def lastVEq : List Char → Option (List Char)
  | [] => none
  | c :: cs =>
    match lastVEq cs with
    | some r => some r
    | none => if c == '?' || c == '&' then vEqCheck cs else none

/-- Fallback to the second alternative of the whole-URL branch: `[^]+`
requires at least one character before the `[?&]v=` marker, so the search
starts at index 1 of the post-`https?://` remainder. -/
def watchFallback (s rest : List Char) : List Char :=
  match rest with
  | [] => s
  | _ :: rs =>
    match lastVEq rs with
    | some r => r
    | none => s

/-- The class-variant `YouTubeAudio.parseVideoId`, a global replace with
`'$1$2$3'` of
`^https?\\:\\/\\/(?:youtu\\.be\\/([\\w\\-]+)[^]*|[^]+[\\?&]v=([\\w\\-]+))$|([\\w\\-]+)`.
The two anchored alternatives consume the whole string and leave just the
captured id; when neither matches, the third alternative replaces every
word-character run by itself, leaving the string unchanged. -/
def parseVideoId (s : List Char) : List Char :=
  match stripHttpPrefix s with
  | none => s
  | some rest =>
    match stripYoutuBe rest with
    | some t =>
      let idc := t.takeWhile isWordChar
      if idc.isEmpty then watchFallback s rest else idc
    | none => watchFallback s rest

/-- Remaining budget of a single listener as a function of how many matching
dispatches have been processed (`none` = removed from the registry). -/
def budgetAfter : Option Int → Nat → Option Int
  | none, _ => none
  | some m, 0 => some m
  | some m, t + 1 => if 0 < m then budgetAfter (some (m - 1)) t else none

/-- Number of times a single listener fires across a given number of
matching dispatches, as a function of its remaining budget. -/
def invokedOf : Option Int → Nat → Nat
  | none, _ => 0
  | some _, 0 => 0
  | some m, t + 1 => if 0 < m then invokedOf (some (m - 1)) t + 1 else 0

end VB

namespace VA

/-- The helper `triggerHandlers(yta, name, event)`: `forEach` over the
callback array, each call wrapped in `try/catch` with the caught exception
re-thrown from `setTimeout` (deferred, never synchronous).  Returns the
callbacks that ran (all of them, in order) and the deferred exceptions. -/
def triggerHandlers {H E : Type} (runH : H → Except E Unit) :
    List H → List H × List E
  | [] => ([], [])
  | c :: cs =>
    let rest := triggerHandlers runH cs
    (c :: rest.1,
      match runH c with
      | .ok _ => rest.2
      | .error e => e :: rest.2)

/-- Ready-related state of a prototype-variant instance: `_isReady` (default
`false`), `_readyEvent` (default `null`; the source never assigns it
anywhere) and the `_readyCallbacks` array. -/
structure ReadyState (H P : Type) where
  isReady : Bool
  readyEvent : Option P
  readyCallbacks : List H
deriving Repr, DecidableEq

/-- Prototype defaults: `_isReady: false`, `_readyEvent: null`,
`_readyCallbacks: null` (an empty callback list). -/
def initReady (H P : Type) : ReadyState H P := ⟨false, none, []⟩

/-- The widget's `onReady` callback installed by `addAudio`: it sets
`yta._isReady = true` and fires `triggerHandlers(yta, 'ready', event)`;
`_readyEvent` is NOT assigned.  The second component lists each callback
together with the payload it received. -/
def widgetReady {H P : Type} (s : ReadyState H P) (event : P) :
    ReadyState H P × List (H × P) :=
  ({ s with isReady := true }, s.readyCallbacks.map (fun c => (c, event)))

/-- The `onReady(callback)` method: when `_isReady`, the callback is called
at once with `this._readyEvent` (the middle component is `some payload`
where the payload is the JS value passed, `none` = `null`); otherwise the
callback is pushed.  The last component is the returned `this._isReady`. -/
def onReady {H P : Type} (s : ReadyState H P) (callback : H) :
    ReadyState H P × Option (Option P) × Bool :=
  if s.isReady then (s, some s.readyEvent, true)
  else ({ s with readyCallbacks := s.readyCallbacks ++ [callback] }, none, false)

/-- Outcome of calling a transport-surface method through the facade. -/
inductive CallResult (R : Type) where
  | ret (r : R)
  | threw (msg : String)
  | loggedEarly (msg : String)
deriving Repr, DecidableEq

/-- A facade object for one guarded method: whether the own-property guard
installed by `init` is still present, and the underlying state `inner`
(standing for the widget plus anything the real method touches). -/
structure Guarded (S : Type) where
  guardPresent : Bool
  inner : S
deriving Repr, DecidableEq

/-- The error text built by the guard. -/
def earlyMessage (key : String) : String :=
  "The " ++ key ++ "() function cannot be called yet."

/-- Test for the prefix regex `^on[A-Z]`. -/
def isOnUpper : List Char → Bool
  | 'o' :: 'n' :: c :: _ => c.isUpper
  | _ => false

/-- The filter used by `init`: a guard is installed over prototype key `key`
exactly when `!/^(init$|getVideoId$|on[A-Z])/.test(key)` holds. -/
def guardInstalled (key : String) : Bool :=
  !(key == "init" || key == "getVideoId" || isOnUpper key.data)

/-- Calling the facade's `key` method.  While the guard is present:
if `self._isReady`, `delete self[key]` drops the guard and the lookup falls
through to the real prototype method, which is applied to the same
arguments; otherwise the early-call message is thrown (default) or logged
(`options.logEarlyCalls`).  Without the guard the real method runs
directly.  `real` is the prototype method: a state transformer returning a
value. -/
def callMethod {S A R : Type} (real : S → A → S × R)
    (logEarlyCalls isReady : Bool) (key : String)
    (f : Guarded S) (a : A) : Guarded S × CallResult R :=
  if f.guardPresent then
    if isReady then
      let o := real f.inner a
      (⟨false, o.1⟩, .ret o.2)
    else if logEarlyCalls then (f, .loggedEarly (earlyMessage key))
    else (f, .threw (earlyMessage key))
  else
    let o := real f.inner a
    ({ f with inner := o.1 }, .ret o.2)

/-- A sequence of calls through the guarded facade. -/
def runCalls {S A R : Type} (real : S → A → S × R)
    (logEarlyCalls isReady : Bool) (key : String) :
    Guarded S → List A → Guarded S × List (CallResult R)
  | f, [] => (f, [])
  | f, a :: as =>
    let step := callMethod real logEarlyCalls isReady key f a
    let rest := runCalls real logEarlyCalls isReady key step.1 as
    (rest.1, step.2 :: rest.2)

/-- The same sequence of calls made directly against the unguarded real
method (the reference behaviour the guard must refine once ready). -/
def runReal {S A R : Type} (real : S → A → S × R) :
    S → List A → S × List R
  | s, [] => (s, [])
  | s, a :: as =>
    let o := real s a
    let rest := runReal real o.1 as
    (rest.1, o.2 :: rest.2)

/-- The helper `mod(a, b) = (a % b + b) % b` where `%` is the JS remainder
(truncating, sign of the dividend), i.e. `Int.tmod`. -/
def jsMod (a b : Int) : Int :=
  (a.tmod b + b).tmod b

/-- Test for the regex class `[?&]`. -/
def isQA (c : Char) : Bool := c == '?' || c == '&'

/-- Search of branch `^[^]*?[\\?&]v=([^&]+)[^]*$`: the lazy prefix finds the
EARLIEST `?v=`/`&v=` marker followed by at least one non-`&` character; the
suffix after the marker is returned.  When the capture would be empty the
lazy prefix keeps growing, i.e. the scan moves one character right. -/
def findVEq : List Char → Option (List Char)
  | [] => none
  | c :: cs =>
    if isQA c then
      match cs with
      | 'v' :: '=' :: r =>
        match r with
        | r1 :: rs => if r1 == '&' then findVEq cs else some (r1 :: rs)
        | [] => findVEq cs
      | _ => findVEq cs
    else findVEq cs

/-- Attempt of branch 2's body at one position: after a `':'`, the text must
continue `//youtu` + any character + `be/` (the dot is NOT escaped in this
variant's regex) and then at least one character outside `[/?]`, the capture
being the maximal such run's start. -/
def youtuBeCheck : List Char → Option (List Char)
  | '/' :: '/' :: 'y' :: 'o' :: 'u' :: 't' :: 'u' :: _ :: 'b' :: 'e' :: '/' :: r1 :: rs =>
    if r1 == '/' || r1 == '?' then none else some (r1 :: rs)
  | _ => none

/-- Search of branch `^[^]*?:\\/\\/youtu.be\\/([^\\/\\?]+)[^]*$`: the lazy
prefix selects the earliest position where `youtuBeCheck` succeeds. -/
def findYoutuBe : List Char → Option (List Char)
  | [] => none
  | c :: cs =>
    if c == ':' then
      match youtuBeCheck cs with
      | some r => some r
      | none => findYoutuBe cs
    else findYoutuBe cs

/-- The prototype-variant `YTA.parseVideoId`: a single (non-global) replace
with `'$1$2'` of
`^[^]*?[\\?&]v=([^&]+)[^]*$|^[^]*?:\\/\\/youtu.be\\/([^\\/\\?]+)[^]*$`.
Both branches are anchored on the whole string, so a successful match
replaces everything with the capture: the characters after `v=` up to the
next `&` (branch 1, preferred) or the characters after `://youtu?be/` up to
the next `/` or `?` (branch 2).  No match leaves the string unchanged. -/
def parseVideoId (s : List Char) : List Char :=
  match findVEq s with
  | some r => r.takeWhile (fun c => !(c == '&'))
  | none =>
    match findYoutuBe s with
    | some r => r.takeWhile (fun c => !(c == '/' || c == '?'))
    | none => s

/-- Playlist-related state of a prototype-variant session: `_videoIds` and
`_index`. -/
structure Session where
  videoIds : List String
  index : Int
deriving Repr, DecidableEq

/-- The `getVideoId()` query `this._videoIds[this._index]`: JS array
indexing yields `undefined` (`none`) outside the bounds. -/
def getVideoId (s : Session) : Option String :=
  if 0 ≤ s.index then s.videoIds.get? s.index.toNat else none

/-- The `playNext()` method: `this._index = mod(this._index + 1,
this._videoIds.length)` (the subsequent `loadVideoById` call is a widget
effect outside this model). -/
def playNext (s : Session) : Session :=
  { s with index := jsMod (s.index + 1) (s.videoIds.length : Int) }

/-- The `playPrevious()` method: `this._index = mod(this._index - 1,
this._videoIds.length)`. -/
def playPrevious (s : Session) : Session :=
  { s with index := jsMod (s.index - 1) (s.videoIds.length : Int) }

/-- The `setSources(newSources)` method: `_videoIds` is replaced by
`newSources.map(YTA.parseVideoId)` (a fresh array) and the old array is
returned; `_index` is left untouched. -/
def setSources (s : Session) (newSources : List String) :
    Session × List String :=
  ({ s with videoIds := newSources.map (fun v => String.mk (parseVideoId v.data)) },
   s.videoIds)

end VA

namespace VAHeap

/-- A tiny store of JS arrays so that aliasing between the session's
internal `_videoIds` array and arrays handed to callers is observable.
Cell `r` holds the array at reference `r`. -/
structure Heap where
  cells : List (List String)
deriving Repr, DecidableEq

/-- Dereference (`undefined` for a dangling reference). -/
def Heap.read (h : Heap) (r : Nat) : Option (List String) :=
  h.cells.get? r

/-- Allocation of a fresh array, returning its reference. -/
def Heap.alloc (h : Heap) (v : List String) : Heap × Nat :=
  (⟨h.cells ++ [v]⟩, h.cells.length)

/-- In-place mutation of the array at `r` (what a caller does to an array it
was handed). -/
def Heap.write (h : Heap) (r : Nat) (v : List String) : Heap :=
  ⟨h.cells.set r v⟩

/-- Session fields relevant to aliasing: the reference to the internal
`_videoIds` array and `_index`. -/
structure SessionH where
  videoIdsRef : Nat
  index : Int
deriving Repr, DecidableEq

/-- `YTA.getUrlFromVideoId`. -/
def getUrlFromVideoId (videoId : String) : String :=
  "https://youtu.be/" ++ videoId

/-- The `getVideoIds()` query: `this._videoIds.slice()` — a fresh copy of
the internal array is allocated and its reference returned; the session is
untouched. -/
def getVideoIds (h : Heap) (s : SessionH) : Heap × Nat :=
  h.alloc ((h.read s.videoIdsRef).getD [])

/-- The `getVideoUrls()` query: `this._videoIds.map(YTA.getUrlFromVideoId)`
— `map` allocates a fresh array. -/
def getVideoUrls (h : Heap) (s : SessionH) : Heap × Nat :=
  h.alloc (((h.read s.videoIdsRef).getD []).map getUrlFromVideoId)

/-- The `setSources(newSources)` method at the heap level:
`newSources.map(...)` allocates a fresh array which becomes the internal
one, and the reference to the OLD internal array is returned. -/
def setSources (h : Heap) (s : SessionH) (newSources : List String) :
    Heap × SessionH × Nat :=
  let o := h.alloc (newSources.map (fun v => String.mk (VA.parseVideoId v.data)))
  (o.1, { s with videoIdsRef := o.2 }, s.videoIdsRef)

end VAHeap



namespace Proofs

/-- Lower bound of the JS remainder: for a positive modulus `b`,
`a.tmod b` exceeds `-b`. -/
theorem neg_lt_tmod (a : Int) {b : Int} (hb : 0 < b) : -b < a.tmod b := by
  obtain ⟨n, rfl⟩ := Int.eq_succ_of_zero_lt hb
  cases a with
  | ofNat m =>
    show -((n + 1 : Nat) : Int) < (Int.ofNat m).tmod ((n + 1 : Nat) : Int)
    have h := Int.tmod_nonneg (a := Int.ofNat m) ((n + 1 : Nat) : Int) (Int.ofNat_nonneg m)
    omega
  | negSucc m =>
    show -((n + 1 : Nat) : Int) < (Int.negSucc m).tmod ((n + 1 : Nat) : Int)
    have he : (Int.negSucc m).tmod ((n + 1 : Nat) : Int) = -(((m + 1) % (n + 1) : Nat) : Int) := rfl
    have hm := Nat.mod_lt (m + 1) (show 0 < n + 1 by omega)
    rw [he]
    omega

/-- The helper `mod(a, b)` agrees with mathematical (euclidean) modulus for
every dividend when the modulus is positive. -/
theorem jsMod_eq_emod (a : Int) {b : Int} (hb : 0 < b) : VA.jsMod a b = a % b := by
  unfold VA.jsMod
  have h1 : 0 ≤ a.tmod b + b := by have := neg_lt_tmod a hb; omega
  rw [Int.tmod_eq_emod h1 (by omega), Int.add_emod_self, Int.tmod_def,
    Int.sub_eq_add_neg, ← Int.mul_neg, Int.add_mul_emod_self_left]

/-- Range of the helper `mod(a, b)` for positive `b`. -/
theorem jsMod_range (a : Int) {b : Int} (hb : 0 < b) :
    0 ≤ VA.jsMod a b ∧ VA.jsMod a b < b := by
  rw [jsMod_eq_emod a hb]
  exact ⟨Int.emod_nonneg a (by omega), Int.emod_lt_of_pos a hb⟩

/-- C4 (index wraparound law): for a playlist of length `L ≥ 1` and current
index `i` with `0 ≤ i < L`, `playNext` sets the index to `(i + 1) % L` — in
particular `0` from `L - 1` — and `playPrevious` sets it to `(i - 1) % L`
with the negative case wrapped — in particular `L - 1` from `0`. -/
theorem c4_index_wraparound (s : VA.Session)
    (h0 : 0 ≤ s.index) (h1 : s.index < (s.videoIds.length : Int)) :
    (VA.playNext s).index = (s.index + 1) % (s.videoIds.length : Int) ∧
    (s.index = (s.videoIds.length : Int) - 1 → (VA.playNext s).index = 0) ∧
    (VA.playPrevious s).index = (s.index - 1) % (s.videoIds.length : Int) ∧
    (s.index = 0 → (VA.playPrevious s).index = (s.videoIds.length : Int) - 1) := by
  have hb : 0 < (s.videoIds.length : Int) := by omega
  refine ⟨jsMod_eq_emod _ hb, ?_, jsMod_eq_emod _ hb, ?_⟩
  · intro h
    show VA.jsMod (s.index + 1) (s.videoIds.length : Int) = 0
    rw [jsMod_eq_emod _ hb, h,
      show ((s.videoIds.length : Int) - 1) + 1 = (s.videoIds.length : Int) by omega,
      Int.emod_self]
  · intro h
    show VA.jsMod (s.index - 1) (s.videoIds.length : Int) = _
    rw [jsMod_eq_emod _ hb, h, show ((0 : Int) - 1) = -1 by omega, Int.neg_emod]
    exact Int.emod_eq_of_lt (by omega) (by omega)

/-- Witness for C4 at a concrete session: advancing from the last index of a
three-element playlist wraps to `0`, retreating from `0` wraps to `2`. -/
theorem c4_index_wraparound_witness :
    (VA.playNext ⟨["a", "b", "c"], 2⟩).index = 0 ∧
    (VA.playPrevious ⟨["a", "b", "c"], 0⟩).index = 2 := by
  constructor
  · exact (c4_index_wraparound ⟨["a", "b", "c"], 2⟩ (by decide) (by decide)).2.1 (by decide)
  · have h := (c4_index_wraparound ⟨["a", "b", "c"], 0⟩ (by decide) (by decide)).2.2.2 (by decide)
    simpa using h

/-- C7 counterexample: from playlist `["a","b","c"]` advance twice (index
`2`), then `setSources ["d"]`.  The code keeps `_index = 2` while the new
playlist has length `1`, so the index is out of range and `getVideoId()`
returns `undefined` — refuting the claim that the current index stays valid
across `setSources`. -/
theorem c7_current_index_cex :
    ((VA.setSources (VA.playNext (VA.playNext ⟨["a", "b", "c"], 0⟩)) ["d"]).1.index = 2) ∧
    ((VA.setSources (VA.playNext (VA.playNext ⟨["a", "b", "c"], 0⟩)) ["d"]).1.videoIds = ["d"]) ∧
    ¬((VA.setSources (VA.playNext (VA.playNext ⟨["a", "b", "c"], 0⟩)) ["d"]).1.index
        < ((VA.setSources (VA.playNext (VA.playNext ⟨["a", "b", "c"], 0⟩)) ["d"]).1.videoIds.length : Int)) ∧
    VA.getVideoId (VA.setSources (VA.playNext (VA.playNext ⟨["a", "b", "c"], 0⟩)) ["d"]).1 = none := by
  decide

/-- C7 as amended: for a non-empty playlist, `playNext` and `playPrevious`
always leave the current index valid (`0 ≤ i < L`, even repairing an
out-of-range index) and `getVideoId()` then returns an element of the
playlist; `setSources`, however, leaves the index unchanged, so it can leave
the index out of range when the replacement list is no longer than the
current index. -/
theorem c7_current_index_amended (s : VA.Session) (newSources : List String)
    (h : s.videoIds ≠ []) :
    (0 ≤ (VA.playNext s).index ∧
      (VA.playNext s).index < ((VA.playNext s).videoIds.length : Int)) ∧
    (∃ v, VA.getVideoId (VA.playNext s) = some v ∧ v ∈ s.videoIds) ∧
    (0 ≤ (VA.playPrevious s).index ∧
      (VA.playPrevious s).index < ((VA.playPrevious s).videoIds.length : Int)) ∧
    (∃ v, VA.getVideoId (VA.playPrevious s) = some v ∧ v ∈ s.videoIds) ∧
    (VA.setSources s newSources).1.index = s.index := by
  have hb : 0 < (s.videoIds.length : Int) := by
    have := List.length_pos.mpr h
    omega
  have hn := jsMod_range (s.index + 1) hb
  have hp := jsMod_range (s.index - 1) hb
  refine ⟨⟨hn.1, hn.2⟩, ?_, ⟨hp.1, hp.2⟩, ?_, rfl⟩
  · have hlt : (VA.jsMod (s.index + 1) (s.videoIds.length : Int)).toNat < s.videoIds.length := by
      omega
    refine ⟨s.videoIds.get ⟨_, hlt⟩, ?_, List.get_mem _ _ _⟩
    rw [show VA.getVideoId (VA.playNext s) =
        (if 0 ≤ VA.jsMod (s.index + 1) (s.videoIds.length : Int) then
          s.videoIds.get? (VA.jsMod (s.index + 1) (s.videoIds.length : Int)).toNat
        else none) from rfl]
    rw [if_pos hn.1, List.get?_eq_get hlt]
  · have hlt : (VA.jsMod (s.index - 1) (s.videoIds.length : Int)).toNat < s.videoIds.length := by
      omega
    refine ⟨s.videoIds.get ⟨_, hlt⟩, ?_, List.get_mem _ _ _⟩
    rw [show VA.getVideoId (VA.playPrevious s) =
        (if 0 ≤ VA.jsMod (s.index - 1) (s.videoIds.length : Int) then
          s.videoIds.get? (VA.jsMod (s.index - 1) (s.videoIds.length : Int)).toNat
        else none) from rfl]
    rw [if_pos hp.1, List.get?_eq_get hlt]

/-- Witness for the amended C7 at a concrete session (with a deliberately
out-of-range starting index). -/
theorem c7_current_index_amended_witness :
    ((0 ≤ (VA.playNext ⟨["a", "b"], 7⟩).index ∧
      (VA.playNext ⟨["a", "b"], 7⟩).index < ((VA.playNext ⟨["a", "b"], 7⟩).videoIds.length : Int)) ∧
    (∃ v, VA.getVideoId (VA.playNext ⟨["a", "b"], 7⟩) = some v ∧ v ∈ ["a", "b"]) ∧
    (0 ≤ (VA.playPrevious ⟨["a", "b"], 7⟩).index ∧
      (VA.playPrevious ⟨["a", "b"], 7⟩).index < ((VA.playPrevious ⟨["a", "b"], 7⟩).videoIds.length : Int)) ∧
    (∃ v, VA.getVideoId (VA.playPrevious ⟨["a", "b"], 7⟩) = some v ∧ v ∈ ["a", "b"]) ∧
    (VA.setSources ⟨["a", "b"], 7⟩ ["u"]).1.index = 7) :=
  c7_current_index_amended ⟨["a", "b"], 7⟩ ["u"] (by decide)

/-- C1 (early-call contract): invoking a guarded transport method (any
prototype key passing the `init` filter, i.e. not `init`, `getVideoId` or
`on`-prefixed) while the session is not ready throws an error whose message
names the method when `logEarlyCalls` is falsy, and logs the same
descriptive message and returns without effect — state untouched, no
exception — when `logEarlyCalls` is true; the call is never silently
dropped: it always ends in one of those two outcomes, never a forwarded
return. -/
theorem c1_early_call_guard {S A R : Type} (real : S → A → S × R)
    (logEarlyCalls : Bool) (key : String) (f : VA.Guarded S) (a : A)
    (_hg : VA.guardInstalled key = true) (hp : f.guardPresent = true) :
    (logEarlyCalls = false →
      (VA.callMethod real logEarlyCalls false key f a).2
        = .threw (VA.earlyMessage key)) ∧
    (logEarlyCalls = true →
      (VA.callMethod real logEarlyCalls false key f a).2
        = .loggedEarly (VA.earlyMessage key)) ∧
    (VA.callMethod real logEarlyCalls false key f a).1 = f ∧
    (∃ pre post, (VA.earlyMessage key).data = pre ++ key.data ++ post) ∧
    ((VA.callMethod real logEarlyCalls false key f a).2
        = .threw (VA.earlyMessage key) ∨
      (VA.callMethod real logEarlyCalls false key f a).2
        = .loggedEarly (VA.earlyMessage key)) := by
  have hmsg : ∃ pre post, (VA.earlyMessage key).data = pre ++ key.data ++ post := by
    refine ⟨"The ".data, "() function cannot be called yet.".data, ?_⟩
    show (("The " ++ key) ++ "() function cannot be called yet.").data = _
    rw [String.data_append, String.data_append, List.append_assoc]
  unfold VA.callMethod
  rw [hp]
  cases logEarlyCalls with
  | false =>
    refine ⟨fun _ => rfl, fun hcon => by simp at hcon, rfl, hmsg, Or.inl rfl⟩
  | true =>
    refine ⟨fun hcon => by simp at hcon, fun _ => rfl, rfl, hmsg, Or.inr rfl⟩

/-- Witness for C1: the not-ready `playNext` guard throws by default and
logs under `logEarlyCalls`. -/
theorem c1_early_call_guard_witness :
    ((VA.callMethod (fun (s : Unit) (_ : Unit) => (s, (0 : Nat))) false false
        "playNext" ⟨true, ()⟩ ()).2 = .threw (VA.earlyMessage "playNext")) ∧
    ((VA.callMethod (fun (s : Unit) (_ : Unit) => (s, (0 : Nat))) true false
        "playNext" ⟨true, ()⟩ ()).2 = .loggedEarly (VA.earlyMessage "playNext")) := by
  constructor
  · exact (c1_early_call_guard _ false "playNext" ⟨true, ()⟩ () (by decide) rfl).1 rfl
  · exact (c1_early_call_guard _ true "playNext" ⟨true, ()⟩ () (by decide) rfl).2.1 rfl

/-- After the guard is gone, the facade runs the real method directly: the
guarded run from a guard-free facade equals the plain run of the prototype
method. -/
theorem runCalls_unguarded {S A R : Type} (real : S → A → S × R)
    (lec : Bool) (key : String) (as : List A) : ∀ s : S,
    VA.runCalls real lec true key ⟨false, s⟩ as =
      (⟨false, (VA.runReal real s as).1⟩, (VA.runReal real s as).2.map .ret) := by
  induction as with
  | nil => intro s; rfl
  | cons a as ih =>
    intro s
    simp [VA.runCalls, VA.runReal, VA.callMethod, ih]

/-- C5 (lazy unwrapping): once the session is ready, the first invocation of
a guarded method removes the guard (exactly once — it is already absent for
every later call) and forwards to the real method; the whole call sequence
returns exactly the values the unguarded prototype method would return, and
leaves the same underlying state. -/
theorem c5_lazy_unwrap {S A R : Type} (real : S → A → S × R)
    (lec : Bool) (key : String) (s : S) (a : A) (as : List A) :
    (VA.runCalls real lec true key ⟨true, s⟩ (a :: as)).2
      = (VA.runReal real s (a :: as)).2.map .ret ∧
    (VA.runCalls real lec true key ⟨true, s⟩ (a :: as)).1
      = ⟨false, (VA.runReal real s (a :: as)).1⟩ ∧
    (VA.callMethod real lec true key ⟨true, s⟩ a).1.guardPresent = false := by
  have h1 : VA.callMethod real lec true key ⟨true, s⟩ a
      = (⟨false, (real s a).1⟩, .ret (real s a).2) := rfl
  refine ⟨?_, ?_, rfl⟩ <;>
    simp [VA.runCalls, h1, runCalls_unguarded, VA.runReal]

/-- C3 (ready replay): the claim matches the class variant — subscribing to
`"ready"` after `_readyArguments` is stored fires the handler at once with
the stored payload and consumes one unit of the limit (last two conjuncts).
The prototype variant, however, has a slip: `addAudio`'s `onReady` sets
`_isReady` and delivers the event to the already-registered callbacks (first
conjunct shows the original payload is `"evt"`), but never assigns
`_readyEvent`, so a late `onReady` subscriber is invoked with `null`
(`some none`), not the original payload (second and third conjuncts). -/
theorem c3_ready_replay_codeBug :
    ((VA.widgetReady (VA.onReady (VA.initReady Unit String) ()).1 "evt").2
      = [((), "evt")]) ∧
    ((VA.onReady (VA.widgetReady (VA.onReady (VA.initReady Unit String) ()).1 "evt").1 ()).2.1
      = some none) ∧
    (some (none : Option String) ≠ some (some "evt")) ∧
    ((VB.onEv (⟨[], some "evt"⟩ : VB.YtaState Unit String) "ready" () (.fin 2)).2.2
      = some "evt") ∧
    ((VB.onEv (⟨[], some "evt"⟩ : VB.YtaState Unit String) "ready" () (.fin 2)).1.listenersByName
      = [("ready", ⟨2, [⟨1, .fin 1, ()⟩]⟩)]) := by
  decide

/-- Closed form of one `trigger` dispatch: every record with a positive
budget survives with its budget decremented, the invoked ids are exactly the
live records' ids in order, and the deferred channel collects exactly the
exceptions handlers raise. -/
theorem dispatchRecords_eq {H E : Type} (runH : H → Except E Unit)
    (rs : List (VB.Listener H)) :
    VB.dispatchRecords runH rs =
      ⟨(rs.filter (fun l => l.limit.isPos)).map (fun l => { l with limit := l.limit.dec }),
       (rs.filter (fun l => l.limit.isPos)).map (fun l => l.id),
       (rs.filter (fun l => l.limit.isPos)).filterMap
         (fun l =>
           match runH l.handler with
           | .ok _ => none
           | .error e => some e)⟩ := by
  induction rs with
  | nil => rfl
  | cons l ls ih =>
    cases hpos : l.limit.isPos with
    | false => simp [VB.dispatchRecords, hpos, ih]
    | true =>
      cases hr : runH l.handler with
      | ok u => simp [VB.dispatchRecords, hpos, hr, ih]
      | error e => simp [VB.dispatchRecords, hpos, hr, ih]

/-- C6 (dispatch order and fault isolation), for both variants: a dispatch
invokes exactly the live listeners, in registration order, independently of
which handlers throw (the right-hand sides never mention the handler
outcomes for the invocation lists); a handler exception is pushed to the
deferred top-level channel rather than swallowed, and — the dispatch being a
total function that still produces the full invocation list — it neither
aborts the remaining listeners nor propagates synchronously to the
triggering code path. -/
theorem c6_dispatch_order_fault_isolation {H E : Type} (runH : H → Except E Unit)
    (rs : List (VB.Listener H)) (cbs : List H) :
    (VB.dispatchRecords runH rs).invoked
      = (rs.filter (fun l => l.limit.isPos)).map (fun l => l.id) ∧
    (VB.dispatchRecords runH rs).deferred
      = (rs.filter (fun l => l.limit.isPos)).filterMap
          (fun l =>
            match runH l.handler with
            | .ok _ => none
            | .error e => some e) ∧
    (VA.triggerHandlers runH cbs).1 = cbs ∧
    (VA.triggerHandlers runH cbs).2
      = cbs.filterMap
          (fun c =>
            match runH c with
            | .ok _ => none
            | .error e => some e) := by
  refine ⟨by rw [dispatchRecords_eq], by rw [dispatchRecords_eq], ?_, ?_⟩
  · induction cbs with
    | nil => rfl
    | cons c cs ih => simp [VA.triggerHandlers, ih]
  · induction cbs with
    | nil => rfl
    | cons c cs ih =>
      cases hr : runH c with
      | ok u => simp [VA.triggerHandlers, hr, ih]
      | error e => simp [VA.triggerHandlers, hr, ih]

/-- Updating one event key of the dictionary leaves every other key's group
unchanged. -/
theorem getEv_setEv {H : Type} (reg : VB.Registry H) (n : String)
    (g : VB.EvGroup H) (m : String) :
    VB.getEv (VB.setEv reg n g) m = if n = m then some g else VB.getEv reg m := by
  induction reg with
  | nil =>
    by_cases hm : n = m <;> simp [VB.setEv, VB.getEv, hm]
  | cons p rest ih =>
    obtain ⟨k, v⟩ := p
    by_cases hk : k = n
    · subst hk
      by_cases hm : k = m <;> simp [VB.setEv, VB.getEv, hm]
    · by_cases hm : k = m
      · subst hm
        have hnm : ¬n = k := fun h => hk h.symm
        simp [VB.setEv, VB.getEv, hk, hnm]
      · simp [VB.setEv, VB.getEv, hk, hm, ih]

/-- A record id outside a list yields no registry entry. -/
theorem recState_eq_none {H : Type} {rs : List (VB.Listener H)} {i : Nat}
    (h : i ∉ rs.map (fun l => l.id)) : VB.recState rs i = none := by
  unfold VB.recState
  have hf : rs.find? (fun l => l.id == i) = none := by
    rw [List.find?_eq_none]
    intro x hx
    simp only [beq_iff_eq]
    intro he
    exact h (List.mem_map.mpr ⟨x, hx, he⟩)
  rw [hf]
  rfl

/-- With distinct ids, searching the live-filtered records for an id agrees
with searching all records and then testing liveness. -/
theorem find?_filter_pos {H : Type} (rs : List (VB.Listener H)) (i : Nat)
    (hnd : (rs.map (fun l => l.id)).Nodup) :
    (rs.filter (fun l => l.limit.isPos)).find? (fun l => l.id == i)
      = (rs.find? (fun l => l.id == i)).bind
          (fun l => if l.limit.isPos then some l else none) := by
  induction rs with
  | nil => rfl
  | cons l ls ih =>
    rw [List.map_cons, List.nodup_cons] at hnd
    by_cases hid : l.id = i
    · subst hid
      cases hpos : l.limit.isPos with
      | true =>
        rw [List.filter_cons_of_pos (p := fun l : VB.Listener H => l.limit.isPos) hpos,
          List.find?_cons_of_pos _ (by simp),
          List.find?_cons_of_pos _ (by simp)]
        simp [hpos]
      | false =>
        rw [List.filter_cons_of_neg (p := fun l : VB.Listener H => l.limit.isPos) (by simp [hpos]),
          List.find?_cons_of_pos _ (by simp)]
        have hnone : List.find? (fun x : VB.Listener H => x.id == l.id)
            (List.filter (fun l => l.limit.isPos) ls) = none := by
          rw [List.find?_eq_none]
          intro x hx
          simp only [beq_iff_eq]
          intro he
          exact hnd.1 (List.mem_map.mpr ⟨x, List.mem_of_mem_filter hx, he⟩)
        rw [hnone]
        simp [hpos]
    · have hb : ((fun x : VB.Listener H => x.id == i) l) = false := by
        simp [hid]
      cases hpos : l.limit.isPos with
      | true =>
        rw [List.filter_cons_of_pos (p := fun l : VB.Listener H => l.limit.isPos) hpos,
          List.find?_cons_of_neg _ (by simp [hid]),
          List.find?_cons_of_neg _ (by simp [hid])]
        exact ih hnd.2
      | false =>
        rw [List.filter_cons_of_neg (p := fun l : VB.Listener H => l.limit.isPos) (by simp [hpos]),
          List.find?_cons_of_neg _ (by simp [hid])]
        exact ih hnd.2

/-- With distinct ids, the number of times an id appears among the live
records' ids is `1` or `0` according to that record's liveness. -/
theorem count_map_id_filter {H : Type} (rs : List (VB.Listener H)) (i : Nat)
    (hnd : (rs.map (fun l => l.id)).Nodup) :
    ((rs.filter (fun l => l.limit.isPos)).map (fun l => l.id)).count i
      = (match rs.find? (fun l => l.id == i) with
         | some l => if l.limit.isPos then 1 else 0
         | none => 0) := by
  induction rs with
  | nil => rfl
  | cons l ls ih =>
    rw [List.map_cons, List.nodup_cons] at hnd
    have hzero : ∀ x ∈ ls.filter (fun l => l.limit.isPos), ¬x.id = i →
        True := fun _ _ _ => trivial
    by_cases hid : l.id = i
    · subst hid
      have hcnt : ((ls.filter (fun l => l.limit.isPos)).map (fun l => l.id)).count l.id = 0 := by
        rw [List.count_eq_zero]
        intro hmem
        obtain ⟨x, hx, he⟩ := List.mem_map.mp hmem
        exact hnd.1 (List.mem_map.mpr ⟨x, List.mem_of_mem_filter hx, he⟩)
      cases hpos : l.limit.isPos with
      | true =>
        rw [List.filter_cons_of_pos (p := fun l : VB.Listener H => l.limit.isPos) hpos, List.map_cons, List.count_cons_self,
          List.find?_cons_of_pos _ (by simp), hcnt]
        simp [hpos]
      | false =>
        rw [List.filter_cons_of_neg (p := fun l : VB.Listener H => l.limit.isPos) (by simp [hpos]),
          List.find?_cons_of_pos _ (by simp), hcnt]
        simp [hpos]
    · cases hpos : l.limit.isPos with
      | true =>
        rw [List.filter_cons_of_pos (p := fun l : VB.Listener H => l.limit.isPos) hpos, List.map_cons,
          List.count_cons_of_ne (fun h => hid h.symm),
          List.find?_cons_of_neg _ (by simp [hid])]
        exact ih hnd.2
      | false =>
        rw [List.filter_cons_of_neg (p := fun l : VB.Listener H => l.limit.isPos) (by simp [hpos]),
          List.find?_cons_of_neg _ (by simp [hid])]
        exact ih hnd.2

/-- Effect of one dispatch on a single listener, assuming distinct ids: a
live record survives with its budget decremented and fires once; a spent
record is removed and does not fire. -/
theorem recState_dispatch {H E : Type} (runH : H → Except E Unit)
    (rs : List (VB.Listener H)) (i : Nat)
    (hnd : (rs.map (fun l => l.id)).Nodup) :
    VB.recState (VB.dispatchRecords runH rs).records i
      = (VB.recState rs i).bind (fun b => if b.isPos then some b.dec else none) ∧
    (VB.dispatchRecords runH rs).invoked.count i
      = (match VB.recState rs i with
         | some b => if b.isPos then 1 else 0
         | none => 0) := by
  constructor
  · rw [dispatchRecords_eq]
    show VB.recState ((rs.filter _).map _) i = _
    unfold VB.recState
    rw [List.find?_map]
    have hc : ((fun l : VB.Listener H => l.id == i) ∘
        (fun l : VB.Listener H => { l with limit := l.limit.dec }))
          = (fun l : VB.Listener H => l.id == i) := by
      funext x
      rfl
    rw [hc, find?_filter_pos rs i hnd]
    cases hfind : rs.find? (fun l => l.id == i) with
    | none => rfl
    | some l =>
      cases hpos : l.limit.isPos <;> simp [hpos]
  · rw [dispatchRecords_eq]
    show ((rs.filter _).map _).count i = _
    rw [count_map_id_filter rs i hnd]
    unfold VB.recState
    cases hfind : rs.find? (fun l => l.id == i) with
    | none => rfl
    | some l => simp

/-- Triggering a different event name leaves an event's listener group
untouched. -/
theorem trigger_ne_preserves {H E : Type} (runH : H → Except E Unit)
    (reg : VB.Registry H) (n e : String) (hne : n ≠ e) :
    VB.getEv (VB.trigger runH reg n).1 e = VB.getEv reg e := by
  cases hg : VB.getEv reg n with
  | none => simp [VB.trigger, hg]
  | some g => simp [VB.trigger, hg, getEv_setEv, hne]

/-- Effect of one matching `trigger` on a single listener's state, its
invocation count during that dispatch, and preservation of distinct ids. -/
theorem trigger_eq_listState {H E : Type} (runH : H → Except E Unit)
    (reg : VB.Registry H) (e : String) (i : Nat)
    (hnd : (VB.idsAt reg e).Nodup) :
    VB.listState (VB.trigger runH reg e).1 e i
      = (VB.listState reg e i).bind (fun b => if b.isPos then some b.dec else none) ∧
    (VB.trigger runH reg e).2.1.count i
      = (match VB.listState reg e i with
         | some b => if b.isPos then 1 else 0
         | none => 0) ∧
    (VB.idsAt (VB.trigger runH reg e).1 e).Nodup := by
  cases hg : VB.getEv reg e with
  | none =>
    refine ⟨?_, ?_, ?_⟩ <;> simp [VB.trigger, hg, VB.listState, VB.idsAt, hnd]
  | some g =>
    have hnd' : (g.records.map (fun l => l.id)).Nodup := by
      simpa [VB.idsAt, hg] using hnd
    have hd := recState_dispatch runH g.records i hnd'
    refine ⟨?_, ?_, ?_⟩
    · simp [VB.trigger, hg, VB.listState, getEv_setEv, hd.1]
    · simp [VB.trigger, hg, VB.listState, hd.2]
    · have hsub : ((VB.dispatchRecords runH g.records).records.map (fun l => l.id)).Sublist
          (g.records.map (fun l => l.id)) := by
        rw [dispatchRecords_eq, List.map_map]
        have hfe : ((fun l : VB.Listener H => l.id) ∘
            (fun l : VB.Listener H => { l with limit := l.limit.dec }))
              = fun l : VB.Listener H => l.id := funext (fun _ => rfl)
        rw [hfe]
        exact (List.filter_sublist _).map _
      have hlift : (VB.idsAt (VB.trigger runH reg e).1 e)
          = (VB.dispatchRecords runH g.records).records.map (fun l => l.id) := by
        simp [VB.idsAt, VB.trigger, hg, getEv_setEv]
      rw [hlift]
      exact hnd'.sublist hsub

/-- A listener fires at most its (nonnegative part of its) budget many
times. -/
theorem invokedOf_le_toNat (m : Int) (t : Nat) :
    VB.invokedOf (some m) t ≤ m.toNat := by
  induction t generalizing m with
  | zero => simp [VB.invokedOf]
  | succ t ih =>
    by_cases h0 : 0 < m
    · have := ih (m - 1)
      simp only [VB.invokedOf, h0, if_pos]
      omega
    · simp [VB.invokedOf, h0]

/-- After strictly more matching dispatches than the budget allows, the
listener is gone. -/
theorem budgetAfter_spent (m : Int) (t : Nat) (h : m.toNat < t) :
    VB.budgetAfter (some m) t = none := by
  induction t generalizing m with
  | zero => omega
  | succ t ih =>
    by_cases h0 : 0 < m
    · simp only [VB.budgetAfter, h0, if_pos]
      exact ih (m - 1) (by omega)
    · simp [VB.budgetAfter, h0]

/-- Budget evolution of one listener across an arbitrary `trigger`
sequence: the recorded invocations and the final registry state follow the
`invokedOf` / `budgetAfter` recurrences on the initial budget. -/
theorem runTriggers_evolve {H E : Type} (runH : H → Except E Unit)
    (names : List String) (e : String) (i : Nat) :
    ∀ (reg : VB.Registry H) (st : Option Int),
      VB.listState reg e i = st.map VB.Budget.fin →
      (VB.idsAt reg e).Nodup →
      VB.invCount (VB.runTriggers runH reg names).2 e i
          = VB.invokedOf st (names.count e) ∧
      VB.listState (VB.runTriggers runH reg names).1 e i
          = (VB.budgetAfter st (names.count e)).map VB.Budget.fin := by
  induction names with
  | nil =>
    intro reg st hs hnd
    constructor
    · cases st <;> simp [VB.runTriggers, VB.invCount, VB.invokedOf]
    · cases st <;> simp [VB.runTriggers, VB.budgetAfter, hs]
  | cons n ns ih =>
    intro reg st hs hnd
    by_cases hne : n = e
    · subst hne
      have ht := trigger_eq_listState runH reg n i hnd
      cases hst : st with
      | none =>
        have hls : VB.listState reg n i = none := by rw [hs, hst]; rfl
        have h1 : VB.listState (VB.trigger runH reg n).1 n i = none := by
          rw [ht.1, hls]; rfl
        have h2 : (VB.trigger runH reg n).2.1.count i = 0 := by
          rw [ht.2.1, hls]
        have ihh := ih (VB.trigger runH reg n).1 none (by simpa using h1) ht.2.2
        constructor
        · simp [VB.runTriggers, VB.invCount, h2, ihh.1, VB.invokedOf, List.count_cons_self]
        · simp [VB.runTriggers, ihh.2, VB.budgetAfter]
      | some m =>
        have hls : VB.listState reg n i = some (.fin m) := by rw [hs, hst]; rfl
        by_cases h0 : 0 < m
        · have hpos : (VB.Budget.fin m).isPos = true := by
            simp [VB.Budget.isPos, h0]
          have h1 : VB.listState (VB.trigger runH reg n).1 n i = some (.fin (m - 1)) := by
            rw [ht.1, hls]; simp [hpos, VB.Budget.dec]
          have h2 : (VB.trigger runH reg n).2.1.count i = 1 := by
            rw [ht.2.1, hls]; simp [hpos]
          have ihh := ih (VB.trigger runH reg n).1 (some (m - 1)) (by simpa using h1) ht.2.2
          constructor
          · simp [VB.runTriggers, VB.invCount, h2, ihh.1, VB.invokedOf, h0,
              List.count_cons_self]
            omega
          · simp [VB.runTriggers, ihh.2, VB.budgetAfter, h0, List.count_cons_self]
        · have hpos : (VB.Budget.fin m).isPos = false := by
            simp [VB.Budget.isPos, h0]
          have h1 : VB.listState (VB.trigger runH reg n).1 n i = none := by
            rw [ht.1, hls]; simp [hpos]
          have h2 : (VB.trigger runH reg n).2.1.count i = 0 := by
            rw [ht.2.1, hls]; simp [hpos]
          have ihh := ih (VB.trigger runH reg n).1 none (by simpa using h1) ht.2.2
          constructor
          · simp [VB.runTriggers, VB.invCount, h2, ihh.1, VB.invokedOf, h0,
              List.count_cons_self]
          · simp [VB.runTriggers, ihh.2, VB.budgetAfter, h0, List.count_cons_self]
    · have hgp := trigger_ne_preserves runH reg n e hne
      have h1 : VB.listState (VB.trigger runH reg n).1 e i = VB.listState reg e i := by
        simp [VB.listState, hgp]
      have h2 : VB.idsAt (VB.trigger runH reg n).1 e = VB.idsAt reg e := by
        simp [VB.idsAt, hgp]
      have ihh := ih (VB.trigger runH reg n).1 st (h1.trans hs) (h2 ▸ hnd)
      have hcnt : (n :: ns).count e = ns.count e := by
        rw [List.count_cons]
        simp only [beq_iff_eq]
        rw [if_neg hne]
        omega
      constructor
      · simp [VB.runTriggers, VB.invCount, hne, ihh.1, hcnt]
      · simp [VB.runTriggers, ihh.2, hcnt]

/-- C2 (listener budget law): a listener registered for event `e` with
finite limit `N ≥ 0` — distinct ids in its group, as `on` guarantees — is
invoked at most `N` times across ANY sequence of `trigger` calls, and once
the matching dispatches outnumber `N` (so the `(N+1)`-th matching dispatch,
which does not invoke it, has happened) its record is gone from the
registry. -/
theorem c2_listener_budget_law {H E : Type} (runH : H → Except E Unit)
    (reg : VB.Registry H) (names : List String) (e : String) (i N : Nat)
    (hs : VB.listState reg e i = some (.fin (N : Int)))
    (hnd : (VB.idsAt reg e).Nodup) :
    VB.invCount (VB.runTriggers runH reg names).2 e i ≤ N ∧
    (N < names.count e →
      VB.listState (VB.runTriggers runH reg names).1 e i = none) := by
  have h := runTriggers_evolve runH names e i reg (some (N : Int)) (by simpa using hs) hnd
  constructor
  · rw [h.1]
    have := invokedOf_le_toNat (N : Int) (names.count e)
    omega
  · intro hlt
    rw [h.2, budgetAfter_spent (N : Int) (names.count e) (by omega)]
    rfl

/-- Witness for C2: in a `"stateChange"` group holding listener `1` with
limit `1` and an unlimited listener `2`, three consecutive dispatches invoke
listener `1` at most once and remove it. -/
theorem c2_listener_budget_law_witness :
    VB.invCount
        (VB.runTriggers (fun _ : Unit => (Except.ok () : Except String Unit))
          [("stateChange", ⟨3, [⟨1, .fin 1, ()⟩, ⟨2, .inf, ()⟩]⟩)]
          ["stateChange", "stateChange", "stateChange"]).2 "stateChange" 1 ≤ 1 ∧
    (1 < (["stateChange", "stateChange", "stateChange"] : List String).count "stateChange" →
      VB.listState
        (VB.runTriggers (fun _ : Unit => (Except.ok () : Except String Unit))
          [("stateChange", ⟨3, [⟨1, .fin 1, ()⟩, ⟨2, .inf, ()⟩]⟩)]
          ["stateChange", "stateChange", "stateChange"]).1 "stateChange" 1 = none) :=
  c2_listener_budget_law (fun _ : Unit => (Except.ok () : Except String Unit))
    [("stateChange", ⟨3, [⟨1, .fin 1, ()⟩, ⟨2, .inf, ()⟩]⟩)]
    ["stateChange", "stateChange", "stateChange"] "stateChange" 1 1
    (by decide) (by decide)

/-- Digit characters are never `':'`. -/
theorem digitChar_ne_colon (r : Nat) : VB.digitChar r ≠ ':' := by
  unfold VB.digitChar
  split <;> decide

/-- No `':'` appears in a decimal id, whatever the fuel. -/
theorem natCharsAux_no_colon (fuel n : Nat) : ':' ∉ VB.natCharsAux fuel n := by
  induction fuel generalizing n with
  | zero => simp [VB.natCharsAux]
  | succ fuel ih =>
    simp only [VB.natCharsAux]
    by_cases h : n < 10
    · rw [if_pos h]
      intro hmem
      rw [List.mem_singleton] at hmem
      exact digitChar_ne_colon n hmem.symm
    · rw [if_neg h]
      intro hmem
      rcases List.mem_append.mp hmem with hm | hm
      · exact ih (n / 10) hm
      · rw [List.mem_singleton] at hm
        exact digitChar_ne_colon (n % 10) hm.symm

/-- No `':'` appears in the decimal rendering of an id. -/
theorem natChars_no_colon (n : Nat) : ':' ∉ VB.natChars n :=
  natCharsAux_no_colon (n + 1) n

/-- A colon-free list is preserved by the pre-colon scan. -/
theorem takeWhile_no_colon (b : List Char) (hb : ':' ∉ b) :
    b.takeWhile (fun c => !(c == ':')) = b := by
  induction b with
  | nil => rfl
  | cons c cs ih =>
    have hcne : ¬(c = ':') := by
      intro he
      rw [he] at hb
      exact hb (List.mem_cons_self _ _)
    have hc : (c == ':') = false := by
      rw [beq_eq_false_iff_ne]
      exact hcne
    have hb' : ':' ∉ cs := fun hm => hb (List.mem_cons_of_mem c hm)
    simp [List.takeWhile_cons, hc, ih hb']

/-- Splitting `a ++ ':' ++ b` at the colons recovers `a` and `b` when
neither holds a colon. -/
theorem splitColon2_append (a b : List Char) (ha : ':' ∉ a) (hb : ':' ∉ b) :
    VB.splitColon2 (a ++ ':' :: b) = (a, b) := by
  induction a with
  | nil =>
    unfold VB.splitColon2
    rw [List.nil_append, Prod.mk.injEq]
    constructor
    · simp [List.takeWhile_cons]
    · simp [List.dropWhile_cons, takeWhile_no_colon b hb]
  | cons c cs ih =>
    have hcne : ¬(c = ':') := by
      intro he
      rw [he] at ha
      exact ha (List.mem_cons_self _ _)
    have hc : (c == ':') = false := by
      rw [beq_eq_false_iff_ne]
      exact hcne
    have ha' : ':' ∉ cs := fun hm => ha (List.mem_cons_of_mem c hm)
    have ihh := ih ha'
    unfold VB.splitColon2 at ihh ⊢
    rw [Prod.mk.injEq] at ihh ⊢
    constructor
    · rw [List.cons_append, List.takeWhile_cons]
      simp only [hc, Bool.not_false, if_true]
      rw [ihh.1]
    · rw [List.cons_append, List.dropWhile_cons]
      simp only [hc, Bool.not_false, if_true]
      exact ihh.2

/-- Re-updating the same event key overwrites the earlier update. -/
theorem setEv_setEv {H : Type} (reg : VB.Registry H) (n : String)
    (g g' : VB.EvGroup H) :
    VB.setEv (VB.setEv reg n g) n g' = VB.setEv reg n g' := by
  induction reg with
  | nil => simp [VB.setEv]
  | cons p rest ih =>
    obtain ⟨k, v⟩ := p
    by_cases hk : k = n
    · subst hk
      simp [VB.setEv]
    · simp [VB.setEv, hk, ih]

/-- Rebuilding a string from its characters is the identity. -/
theorem string_mk_data (s : String) : String.mk s.data = s := rfl

/-- Characters of a rebuilt string. -/
theorem string_data_mk (l : List Char) : (String.mk l).data = l := rfl

/-- C8 counterexample: `off` with a handle matching nothing — unknown event
name (first conjunct) or an id with no record in an existing group (second
conjunct) — raises a TypeError (reading `.handler`, or indexing, on
`undefined`), modeled by `jsTypeError`; it does NOT return a not-found
indication, refuting the claim. -/
theorem c8_off_cex :
    (VB.off ([] : VB.Registry Unit) "ready:1" = ([], .jsTypeError)) ∧
    (VB.off ([("ready", ⟨2, []⟩)] : VB.Registry Unit) "ready:1"
      = ([("ready", ⟨2, []⟩)], .jsTypeError)) := by
  decide

/-- C8 as amended: `off` with the handle of a registered listener removes
the record and returns the removed handler (here: registering on a fresh
event and unsubscribing round-trips, leaving the group empty); but when no
record corresponds to the handle — unknown event name, or an id absent from
the group — `off` throws a TypeError instead of returning a not-found
indication, leaving the registry unchanged. -/
theorem c8_off_amended {H P : Type} (reg : VB.Registry H) (name : String)
    (cb : H) (lim : VB.Budget)
    (hfresh : VB.getEv reg name = none) (hcol : ':' ∉ name.data) :
    (VB.off (VB.onEv (⟨reg, none⟩ : VB.YtaState H P) name cb lim).1.listenersByName
        (VB.onEv (⟨reg, none⟩ : VB.YtaState H P) name cb lim).2.1
      = (VB.setEv reg name ⟨2, []⟩, .removed cb)) ∧
    (∀ (r : VB.Registry H) (handle : String),
      VB.getEv r (String.mk (VB.splitColon2 handle.data).1) = none →
      VB.off r handle = (r, .jsTypeError)) ∧
    (∀ (r : VB.Registry H) (handle : String) (g : VB.EvGroup H),
      VB.getEv r (String.mk (VB.splitColon2 handle.data).1) = some g →
      g.records.find? (fun l => VB.natChars l.id == (VB.splitColon2 handle.data).2) = none →
      VB.off r handle = (r, .jsTypeError)) := by
  refine ⟨?_, ?_, ?_⟩
  · have honEv : VB.onEv (⟨reg, none⟩ : VB.YtaState H P) name cb lim
        = (⟨VB.setEv reg name ⟨2, [⟨1, lim, cb⟩]⟩, none⟩,
           String.mk (name.data ++ ':' :: VB.natChars 1), none) := by
      simp [VB.onEv, VB.mkHandle, hfresh]
    rw [honEv]
    show VB.off (VB.setEv reg name ⟨2, [⟨1, lim, cb⟩]⟩)
        (String.mk (name.data ++ ':' :: VB.natChars 1)) = _
    have hsplit : VB.splitColon2 (name.data ++ ':' :: VB.natChars 1)
        = (name.data, VB.natChars 1) :=
      splitColon2_append name.data (VB.natChars 1) hcol (natChars_no_colon 1)
    simp [VB.off, string_data_mk, hsplit, string_mk_data, getEv_setEv, setEv_setEv]
  · intro r handle h
    simp [VB.off, h]
  · intro r handle g hg hfind
    simp [VB.off, hg, hfind]

/-- Witness for the amended C8: registering `()` on fresh event `"ready"`
and unsubscribing with the returned handle removes the record and returns
the handler. -/
theorem c8_off_amended_witness :
    VB.off (VB.onEv (⟨[], none⟩ : VB.YtaState Unit Nat) "ready" () (.fin 1)).1.listenersByName
        (VB.onEv (⟨[], none⟩ : VB.YtaState Unit Nat) "ready" () (.fin 1)).2.1
      = (VB.setEv [] "ready" ⟨2, []⟩, .removed ()) :=
  (c8_off_amended [] "ready" () (.fin 1) (by decide) (by decide)).1

/-- C10 (defensive copies): `getVideoIds()` and `getVideoUrls()` hand out
references to freshly allocated arrays distinct from the internal
`_videoIds` cell, so writing through the returned reference never changes
the internal array; the copy holds the same contents at return time.
`setSources` returns the OLD internal reference, but the internal reference
is re-pointed to a freshly mapped array, so mutating the returned array no
longer touches the session's internal list; the current index is untouched
by `setSources`. -/
theorem c10_defensive_copy (h : VAHeap.Heap) (s : VAHeap.SessionH)
    (newSources : List String)
    (hv : s.videoIdsRef < h.cells.length) :
    ((VAHeap.getVideoIds h s).2 ≠ s.videoIdsRef) ∧
    (∀ v, ((VAHeap.getVideoIds h s).1.write (VAHeap.getVideoIds h s).2 v).read s.videoIdsRef
        = h.read s.videoIdsRef) ∧
    ((VAHeap.getVideoIds h s).1.read (VAHeap.getVideoIds h s).2
        = some ((h.read s.videoIdsRef).getD [])) ∧
    ((VAHeap.getVideoUrls h s).2 ≠ s.videoIdsRef) ∧
    (∀ v, ((VAHeap.getVideoUrls h s).1.write (VAHeap.getVideoUrls h s).2 v).read s.videoIdsRef
        = h.read s.videoIdsRef) ∧
    ((VAHeap.setSources h s newSources).2.2 = s.videoIdsRef) ∧
    ((VAHeap.setSources h s newSources).2.1.videoIdsRef ≠ s.videoIdsRef) ∧
    (∀ v, ((VAHeap.setSources h s newSources).1.write s.videoIdsRef v).read
          (VAHeap.setSources h s newSources).2.1.videoIdsRef
        = (VAHeap.setSources h s newSources).1.read
          (VAHeap.setSources h s newSources).2.1.videoIdsRef) ∧
    ((VAHeap.setSources h s newSources).2.1.index = s.index) := by
  have hne : h.cells.length ≠ s.videoIdsRef := by omega
  refine ⟨hne, ?_, ?_, hne, ?_, rfl, hne, ?_, rfl⟩
  · intro v
    show ((h.cells ++ [(h.read s.videoIdsRef).getD []]).set h.cells.length v).get?
        s.videoIdsRef = h.cells.get? s.videoIdsRef
    rw [List.get?_set_ne _ _ hne, List.get?_append hv]
  · show (h.cells ++ [(h.read s.videoIdsRef).getD []]).get? h.cells.length = _
    rw [List.get?_concat_length]
  · intro v
    show ((h.cells ++ [((h.read s.videoIdsRef).getD []).map VAHeap.getUrlFromVideoId]).set
        h.cells.length v).get? s.videoIdsRef = h.cells.get? s.videoIdsRef
    rw [List.get?_set_ne _ _ hne, List.get?_append hv]
  · intro v
    show ((h.cells ++ [newSources.map (fun v => String.mk (VA.parseVideoId v.data))]).set
          s.videoIdsRef v).get? h.cells.length
        = (h.cells ++ [newSources.map (fun v => String.mk (VA.parseVideoId v.data))]).get?
          h.cells.length
    rw [List.get?_set_ne _ _ (fun he => hne he.symm)]

/-- Witness for C10 at a one-cell heap: the copy is a fresh reference,
mutating it leaves the internal array untouched, and `setSources` keeps the
index. -/
theorem c10_defensive_copy_witness :
    ((VAHeap.getVideoIds ⟨[["a"]]⟩ ⟨0, 0⟩).2 ≠ 0) ∧
    (((VAHeap.getVideoIds ⟨[["a"]]⟩ ⟨0, 0⟩).1.write
        (VAHeap.getVideoIds ⟨[["a"]]⟩ ⟨0, 0⟩).2 ["mut"]).read 0
      = (⟨[["a"]]⟩ : VAHeap.Heap).read 0) ∧
    ((VAHeap.setSources ⟨[["a"]]⟩ ⟨0, 0⟩ ["x"]).2.1.index = 0) := by
  have h := c10_defensive_copy ⟨[["a"]]⟩ ⟨0, 0⟩ ["x"] (by decide)
  exact ⟨h.1, h.2.1 ["mut"], h.2.2.2.2.2.2.2.2⟩

/-- A word character is none of the special characters the two regexes care
about. -/
theorem wordChar_props (c : Char) (h : VB.isWordChar c = true) :
    VA.isQA c = false ∧ (c == ':') = false ∧ (c == '&') = false ∧
    (c == '/') = false ∧ (c == '?') = false := by
  have h1 : (c == '?') = false := by
    rw [beq_eq_false_iff_ne]
    intro he
    subst he
    exact absurd h (by decide)
  have h2 : (c == '&') = false := by
    rw [beq_eq_false_iff_ne]
    intro he
    subst he
    exact absurd h (by decide)
  have h3 : (c == ':') = false := by
    rw [beq_eq_false_iff_ne]
    intro he
    subst he
    exact absurd h (by decide)
  have h4 : (c == '/') = false := by
    rw [beq_eq_false_iff_ne]
    intro he
    subst he
    exact absurd h (by decide)
  refine ⟨?_, h3, h2, h4, h1⟩
  show (c == '?' || c == '&') = false
  rw [h1, h2]
  rfl

/-- The lazy scan of branch 1 skips a non-`[?&]` character. -/
theorem findVEq_cons_not_qa (c : Char) (cs : List Char) (hc : VA.isQA c = false) :
    VA.findVEq (c :: cs) = VA.findVEq cs := by
  simp [VA.findVEq, hc]

/-- The lazy scan of branch 1 skips a `[?&]`-free prefix. -/
theorem findVEq_append_no_qa (p s : List Char) (hp : ∀ c ∈ p, VA.isQA c = false) :
    VA.findVEq (p ++ s) = VA.findVEq s := by
  induction p with
  | nil => rfl
  | cons c cs ih =>
    rw [List.cons_append, findVEq_cons_not_qa c _ (hp c (List.mem_cons_self c cs))]
    exact ih (fun x hx => hp x (List.mem_cons_of_mem c hx))

/-- A `[?&]`-free string has no `v=` marker. -/
theorem findVEq_none_of_no_qa (s : List Char) (hs : ∀ c ∈ s, VA.isQA c = false) :
    VA.findVEq s = none := by
  induction s with
  | nil => rfl
  | cons c cs ih =>
    rw [findVEq_cons_not_qa c cs (hs c (List.mem_cons_self c cs))]
    exact ih (fun x hx => hs x (List.mem_cons_of_mem c hx))

/-- The lazy scan of branch 2 skips a non-colon character. -/
theorem findYoutuBe_cons_not_colon (c : Char) (cs : List Char)
    (hc : (c == ':') = false) :
    VA.findYoutuBe (c :: cs) = VA.findYoutuBe cs := by
  simp [VA.findYoutuBe, hc]

/-- The lazy scan of branch 2 skips a colon-free prefix. -/
theorem findYoutuBe_append_no_colon (p s : List Char)
    (hp : ∀ c ∈ p, (c == ':') = false) :
    VA.findYoutuBe (p ++ s) = VA.findYoutuBe s := by
  induction p with
  | nil => rfl
  | cons c cs ih =>
    rw [List.cons_append, findYoutuBe_cons_not_colon c _ (hp c (List.mem_cons_self c cs))]
    exact ih (fun x hx => hp x (List.mem_cons_of_mem c hx))

/-- A colon-free string has no `://youtu?be/` marker. -/
theorem findYoutuBe_none_of_no_colon (s : List Char)
    (hs : ∀ c ∈ s, (c == ':') = false) :
    VA.findYoutuBe s = none := by
  induction s with
  | nil => rfl
  | cons c cs ih =>
    rw [findYoutuBe_cons_not_colon c cs (hs c (List.mem_cons_self c cs))]
    exact ih (fun x hx => hs x (List.mem_cons_of_mem c hx))

/-- The branch-1 capture scan keeps a whole word string. -/
theorem takeWhile_not_amp (idl : List Char)
    (hw : ∀ c ∈ idl, VB.isWordChar c = true) :
    idl.takeWhile (fun c => !(c == '&')) = idl := by
  rw [List.takeWhile_eq_self_iff]
  intro x hx
  have := (wordChar_props x (hw x hx)).2.2.1
  simp [this]

/-- The branch-2 capture scan keeps a whole word string. -/
theorem takeWhile_not_slashq (idl : List Char)
    (hw : ∀ c ∈ idl, VB.isWordChar c = true) :
    idl.takeWhile (fun c => !(c == '/' || c == '?')) = idl := by
  rw [List.takeWhile_eq_self_iff]
  intro x hx
  have h4 := (wordChar_props x (hw x hx)).2.2.2.1
  have h1 := (wordChar_props x (hw x hx)).2.2.2.2
  simp [h4, h1]

/-- The class-variant capture scan keeps a whole word string. -/
theorem takeWhile_word_self (idl : List Char)
    (hw : ∀ c ∈ idl, VB.isWordChar c = true) :
    idl.takeWhile VB.isWordChar = idl := by
  rw [List.takeWhile_eq_self_iff]
  intro x hx
  simp [hw x hx]

/-- The prototype variant extracts the id from a watch-style URL. -/
theorem parseA_watch (idl : List Char) (hne : idl ≠ [])
    (hw : ∀ c ∈ idl, VB.isWordChar c = true) :
    VA.parseVideoId ("https://www.youtube.com/watch?v=".data ++ idl) = idl := by
  obtain ⟨r1, rs, rfl⟩ := List.exists_cons_of_ne_nil hne
  have hr1 : (r1 == '&') = false :=
    (wordChar_props r1 (hw r1 (List.mem_cons_self _ _))).2.2.1
  have hfind : VA.findVEq ("https://www.youtube.com/watch?v=".data ++ (r1 :: rs))
      = some (r1 :: rs) := by
    have step : VA.findVEq ("https://www.youtube.com/watch?v=".data ++ (r1 :: rs))
        = if r1 == '&' then VA.findVEq ('v' :: '=' :: r1 :: rs)
          else some (r1 :: rs) := by
      have he : "https://www.youtube.com/watch?v=".data ++ (r1 :: rs)
          = "https://www.youtube.com/watch".data ++ ('?' :: 'v' :: '=' :: r1 :: rs) := rfl
      rw [he, findVEq_append_no_qa _ _ (by decide)]
      rfl
    rw [step, hr1]
    simp
  unfold VA.parseVideoId
  rw [hfind]
  exact takeWhile_not_amp _ hw

/-- The prototype variant extracts the id from a short-form URL. -/
theorem parseA_youtube (idl : List Char) (hne : idl ≠ [])
    (hw : ∀ c ∈ idl, VB.isWordChar c = true) :
    VA.parseVideoId ("https://youtu.be/".data ++ idl) = idl := by
  obtain ⟨r1, rs, rfl⟩ := List.exists_cons_of_ne_nil hne
  have h4 := (wordChar_props r1 (hw r1 (List.mem_cons_self _ _))).2.2.2.1
  have h1 := (wordChar_props r1 (hw r1 (List.mem_cons_self _ _))).2.2.2.2
  have hnoV : VA.findVEq ("https://youtu.be/".data ++ (r1 :: rs)) = none := by
    apply findVEq_none_of_no_qa
    intro c hc
    rcases List.mem_append.mp hc with hm | hm
    · exact (by decide : ∀ c ∈ "https://youtu.be/".data, VA.isQA c = false) c hm
    · exact (wordChar_props c (hw c hm)).1
  have hcond : (r1 == '/' || r1 == '?') = false := by
    rw [h4, h1]
    rfl
  have hyt : VA.findYoutuBe ("https://youtu.be/".data ++ (r1 :: rs))
      = some (r1 :: rs) := by
    have step : VA.findYoutuBe ("https://youtu.be/".data ++ (r1 :: rs))
        = match (if r1 == '/' || r1 == '?' then none
                 else some (r1 :: rs) : Option (List Char)) with
          | some r => some r
          | none => VA.findYoutuBe ('/' :: '/' :: 'y' :: 'o' :: 'u' :: 't' :: 'u' :: '.' :: 'b' :: 'e' :: '/' :: r1 :: rs) := by
      have he : "https://youtu.be/".data ++ (r1 :: rs)
          = "https".data ++ (':' :: '/' :: '/' :: 'y' :: 'o' :: 'u' :: 't' :: 'u' :: '.' :: 'b' :: 'e' :: '/' :: r1 :: rs) := rfl
      rw [he, findYoutuBe_append_no_colon _ _ (by decide)]
      rfl
    rw [step, hcond]
    rfl
  unfold VA.parseVideoId
  rw [hnoV, hyt]
  exact takeWhile_not_slashq _ hw

/-- A successful `https?://` strip exposes the URL prefix. -/
theorem stripHttpPrefix_some (s r : List Char) (h : VB.stripHttpPrefix s = some r) :
    s = "https://".data ++ r ∨ s = "http://".data ++ r := by
  unfold VB.stripHttpPrefix at h
  split at h
  · cases h
    left
    rfl
  · cases h
    right
    rfl
  · cases h

/-- A pure word string cannot start with a scheme (it has no colon). -/
theorem stripHttp_none_of_word (s : List Char)
    (hw : ∀ c ∈ s, VB.isWordChar c = true) : VB.stripHttpPrefix s = none := by
  cases hstrip : VB.stripHttpPrefix s with
  | none => rfl
  | some r =>
    exfalso
    rcases stripHttpPrefix_some s r hstrip with he | he
    · have hmem : (':' : Char) ∈ s := by
        rw [he]
        exact List.mem_append.mpr (Or.inl (by decide))
      exact absurd (hw ':' hmem) (by decide)
    · have hmem : (':' : Char) ∈ s := by
        rw [he]
        exact List.mem_append.mpr (Or.inl (by decide))
      exact absurd (hw ':' hmem) (by decide)

/-- The greedy branch-2 scan skips a non-`[?&]` character. -/
theorem lastVEq_cons_not_qa (c : Char) (cs : List Char) (hc : VA.isQA c = false) :
    VB.lastVEq (c :: cs) = VB.lastVEq cs := by
  have hc' : (c == '?' || c == '&') = false := hc
  cases hl : VB.lastVEq cs with
  | some r => simp [VB.lastVEq, hl]
  | none => simp [VB.lastVEq, hl, hc']

/-- The greedy branch-2 scan skips a `[?&]`-free prefix. -/
theorem lastVEq_append_no_qa (p s : List Char) (hp : ∀ c ∈ p, VA.isQA c = false) :
    VB.lastVEq (p ++ s) = VB.lastVEq s := by
  induction p with
  | nil => rfl
  | cons c cs ih =>
    rw [List.cons_append, lastVEq_cons_not_qa c _ (hp c (List.mem_cons_self c cs))]
    exact ih (fun x hx => hp x (List.mem_cons_of_mem c hx))

/-- A `[?&]`-free string has no end-anchored `v=` marker. -/
theorem lastVEq_none_of_no_qa (s : List Char) (hs : ∀ c ∈ s, VA.isQA c = false) :
    VB.lastVEq s = none := by
  induction s with
  | nil => rfl
  | cons c cs ih =>
    rw [lastVEq_cons_not_qa c cs (hs c (List.mem_cons_self c cs))]
    exact ih (fun x hx => hs x (List.mem_cons_of_mem c hx))

/-- The greedy branch-2 scan of `?v=` followed by a non-empty word id
captures that id. -/
theorem lastVEq_vexpr (idl : List Char) (hne : idl ≠ [])
    (hw : ∀ c ∈ idl, VB.isWordChar c = true) :
    VB.lastVEq ('?' :: 'v' :: '=' :: idl) = some idl := by
  have h1 : VB.lastVEq ('v' :: '=' :: idl) = none := by
    apply lastVEq_none_of_no_qa
    intro c hc
    rcases List.mem_cons.mp hc with rfl | hc2
    · decide
    · rcases List.mem_cons.mp hc2 with rfl | hc3
      · decide
      · exact (wordChar_props c (hw c hc3)).1
  have hemp : idl.isEmpty = false := by
    cases idl with
    | nil => exact absurd rfl hne
    | cons a l => rfl
  have hall : idl.all VB.isWordChar = true := List.all_eq_true.mpr hw
  have hchk : VB.vEqCheck ('v' :: '=' :: idl) = some idl := by
    rw [show VB.vEqCheck ('v' :: '=' :: idl)
        = (if !idl.isEmpty && idl.all VB.isWordChar then some idl else none) from rfl,
      hemp, hall]
    rfl
  rw [show VB.lastVEq ('?' :: 'v' :: '=' :: idl)
      = (match VB.lastVEq ('v' :: '=' :: idl) with
         | some r => some r
         | none => VB.vEqCheck ('v' :: '=' :: idl)) from rfl, h1, hchk]

/-- Unfolding of the greedy branch-2 scan at a cons cell. -/
theorem lastVEq_cons_eq (c : Char) (cs : List Char) :
    VB.lastVEq (c :: cs)
      = (match VB.lastVEq cs with
         | some r0 => some r0
         | none => if c == '?' || c == '&' then VB.vEqCheck cs else none) := rfl

/-- A successful per-position check yields a non-empty word capture. -/
theorem vEqCheck_some_props (cs r : List Char) (h : VB.vEqCheck cs = some r) :
    r ≠ [] ∧ ∀ c ∈ r, VB.isWordChar c = true := by
  cases cs with
  | nil => exact absurd h (by simp [VB.vEqCheck])
  | cons c1 cs1 =>
    cases cs1 with
    | nil => exact absurd h (by simp [VB.vEqCheck])
    | cons c2 r0 =>
      have h1 : (if c1 == 'v' && c2 == '=' then
          (if !r0.isEmpty && r0.all VB.isWordChar then some r0 else none)
          else none) = some r := h
      cases hvv : (c1 == 'v' && c2 == '=') with
      | false =>
        rw [hvv] at h1
        have h2 : (none : Option (List Char)) = some r := h1
        cases h2
      | true =>
        rw [hvv] at h1
        cases hg : (!r0.isEmpty && r0.all VB.isWordChar) with
        | false =>
          rw [hg] at h1
          have h2 : (none : Option (List Char)) = some r := h1
          cases h2
        | true =>
          rw [hg] at h1
          have h2 : some r0 = some r := h1
          cases h2
          rw [Bool.and_eq_true] at hg
          refine ⟨?_, List.all_eq_true.mp hg.2⟩
          intro he
          rw [he] at hg
          simp at hg

/-- A capture returned by the greedy branch-2 scan is a non-empty word
string. -/
theorem lastVEq_some_props (s r : List Char) (h : VB.lastVEq s = some r) :
    r ≠ [] ∧ ∀ c ∈ r, VB.isWordChar c = true := by
  induction s with
  | nil => exact absurd h (by simp [VB.lastVEq])
  | cons c cs ih =>
    rw [lastVEq_cons_eq] at h
    cases hl : VB.lastVEq cs with
    | some r0 =>
      rw [hl] at h
      have h2 : some r0 = some r := h
      cases h2
      exact ih hl
    | none =>
      rw [hl] at h
      have h1 : (if c == '?' || c == '&' then VB.vEqCheck cs else none) = some r := h
      cases hqa : (c == '?' || c == '&') with
      | false =>
        rw [hqa] at h1
        have h2 : (none : Option (List Char)) = some r := h1
        cases h2
      | true =>
        rw [hqa] at h1
        have h2 : VB.vEqCheck cs = some r := h1
        exact vEqCheck_some_props cs r h2

/-- The branch-2 fallback yields the original string or a non-empty word
capture. -/
theorem watchFallback_cases (s rest : List Char) :
    VB.watchFallback s rest = s ∨
    (VB.watchFallback s rest ≠ [] ∧
      ∀ c ∈ VB.watchFallback s rest, VB.isWordChar c = true) := by
  cases rest with
  | nil => exact Or.inl rfl
  | cons c rs =>
    cases hl : VB.lastVEq rs with
    | none =>
      left
      show (match VB.lastVEq rs with
            | some r => r
            | none => s) = s
      rw [hl]
    | some r =>
      have hres : VB.watchFallback s (c :: rs) = r := by
        show (match VB.lastVEq rs with
              | some r => r
              | none => s) = r
        rw [hl]
      rw [hres]
      right
      exact lastVEq_some_props rs r hl

/-- The prototype variant passes a pure word string through unchanged. -/
theorem parseA_word (s : List Char) (hw : ∀ c ∈ s, VB.isWordChar c = true) :
    VA.parseVideoId s = s := by
  have h1 : VA.findVEq s = none :=
    findVEq_none_of_no_qa s (fun c hc => (wordChar_props c (hw c hc)).1)
  have h2 : VA.findYoutuBe s = none :=
    findYoutuBe_none_of_no_colon s (fun c hc => (wordChar_props c (hw c hc)).2.1)
  unfold VA.parseVideoId
  rw [h1, h2]

/-- The class variant passes a pure word string through unchanged. -/
theorem parseB_word (s : List Char) (hw : ∀ c ∈ s, VB.isWordChar c = true) :
    VB.parseVideoId s = s := by
  have h := stripHttp_none_of_word s hw
  unfold VB.parseVideoId
  rw [h]

/-- Every class-variant parse either returns the input unchanged or a
non-empty word string. -/
theorem parseB_cases (s : List Char) :
    VB.parseVideoId s = s ∨
    (VB.parseVideoId s ≠ [] ∧ ∀ c ∈ VB.parseVideoId s, VB.isWordChar c = true) := by
  cases hstrip : VB.stripHttpPrefix s with
  | none =>
    left
    unfold VB.parseVideoId
    rw [hstrip]
  | some rest =>
    have hred : VB.parseVideoId s
        = (match VB.stripYoutuBe rest with
           | some t =>
             if (t.takeWhile VB.isWordChar).isEmpty then VB.watchFallback s rest
             else t.takeWhile VB.isWordChar
           | none => VB.watchFallback s rest) := by
      unfold VB.parseVideoId
      rw [hstrip]
    cases hyt : VB.stripYoutuBe rest with
    | none =>
      have h2 : VB.parseVideoId s = VB.watchFallback s rest := by
        rw [hred, hyt]
      rw [h2]
      exact watchFallback_cases s rest
    | some t =>
      have h2 : VB.parseVideoId s
          = (if (t.takeWhile VB.isWordChar).isEmpty then VB.watchFallback s rest
             else t.takeWhile VB.isWordChar) := by
        rw [hred, hyt]
      cases hemp : (t.takeWhile VB.isWordChar).isEmpty with
      | true =>
        have h3 : VB.parseVideoId s = VB.watchFallback s rest := by
          rw [h2, hemp]
          rfl
        rw [h3]
        exact watchFallback_cases s rest
      | false =>
        have h3 : VB.parseVideoId s = t.takeWhile VB.isWordChar := by
          rw [h2, hemp]
          rfl
        rw [h3]
        right
        constructor
        · intro he
          rw [he] at hemp
          simp at hemp
        · intro c hc
          exact List.mem_takeWhile_imp hc

/-- The class variant is idempotent on every string. -/
theorem parseB_idem (s : List Char) :
    VB.parseVideoId (VB.parseVideoId s) = VB.parseVideoId s := by
  rcases parseB_cases s with h | ⟨_, hw⟩
  · rw [h]
    exact h
  · exact parseB_word _ hw

/-- The class variant extracts the id from an end-anchored watch URL. -/
theorem parseB_watch (idl : List Char) (hne : idl ≠ [])
    (hw : ∀ c ∈ idl, VB.isWordChar c = true) :
    VB.parseVideoId ("https://www.youtube.com/watch?v=".data ++ idl) = idl := by
  have hlast : VB.lastVEq ("ww.youtube.com/watch?v=".data ++ idl) = some idl := by
    have he : "ww.youtube.com/watch?v=".data ++ idl
        = "ww.youtube.com/watch".data ++ ('?' :: 'v' :: '=' :: idl) := rfl
    rw [he, lastVEq_append_no_qa _ _ (by decide)]
    exact lastVEq_vexpr idl hne hw
  rw [show VB.parseVideoId ("https://www.youtube.com/watch?v=".data ++ idl)
      = (match VB.lastVEq ("ww.youtube.com/watch?v=".data ++ idl) with
         | some r => r
         | none => "https://www.youtube.com/watch?v=".data ++ idl)
    from rfl, hlast]

/-- The class variant extracts the id from a short-form URL. -/
theorem parseB_youtube (idl : List Char) (hne : idl ≠ [])
    (hw : ∀ c ∈ idl, VB.isWordChar c = true) :
    VB.parseVideoId ("https://youtu.be/".data ++ idl) = idl := by
  have hemp : idl.isEmpty = false := by
    cases idl with
    | nil => exact absurd rfl hne
    | cons a l => rfl
  rw [show VB.parseVideoId ("https://youtu.be/".data ++ idl)
      = (if (idl.takeWhile VB.isWordChar).isEmpty
         then VB.watchFallback ("https://youtu.be/".data ++ idl) ("youtu.be/".data ++ idl)
         else idl.takeWhile VB.isWordChar)
    from rfl, takeWhile_word_self idl hw, hemp]
  rfl

/-- C9 counterexample: the prototype variant's `parseVideoId` is NOT
idempotent on every input string: on `"?v=?v=x"` the first parse captures
`"?v=x"` (the lazy prefix stops at the first `?v=` and `[^&]+` greedily
swallows the rest), and parsing that output again yields `"x"`. -/
theorem c9_parse_idem_cex :
    VA.parseVideoId "?v=?v=x".data = "?v=x".data ∧
    VA.parseVideoId (VA.parseVideoId "?v=?v=x".data) = "x".data ∧
    VA.parseVideoId (VA.parseVideoId "?v=?v=x".data) ≠ VA.parseVideoId "?v=?v=x".data := by
  decide

/-- C9 as amended: the class variant's `parseVideoId` is idempotent on
every string; both variants return a bare identifier (a word-character
string) unchanged; both variants extract the embedded identifier from the
two supported URL shapes (for the class variant, the watch form must end at
the id, as its regex is end-anchored); and a string matching neither
recognized shape is passed through unchanged (for the prototype variant:
no `[?&]v=` capture and no `://youtu.be/` capture; for the class variant:
no `http(s)://` scheme — the word-run alternative then rewrites every run
to itself). -/
theorem c9_parse_video_id_amended :
    (∀ s : List Char, VB.parseVideoId (VB.parseVideoId s) = VB.parseVideoId s) ∧
    (∀ s : List Char, (∀ c ∈ s, VB.isWordChar c = true) →
      VA.parseVideoId s = s ∧ VB.parseVideoId s = s) ∧
    (∀ idl : List Char, idl ≠ [] → (∀ c ∈ idl, VB.isWordChar c = true) →
      VA.parseVideoId ("https://www.youtube.com/watch?v=".data ++ idl) = idl ∧
      VA.parseVideoId ("https://youtu.be/".data ++ idl) = idl ∧
      VB.parseVideoId ("https://www.youtube.com/watch?v=".data ++ idl) = idl ∧
      VB.parseVideoId ("https://youtu.be/".data ++ idl) = idl) ∧
    (∀ s : List Char, VA.findVEq s = none → VA.findYoutuBe s = none →
      VA.parseVideoId s = s) ∧
    (∀ s : List Char, VB.stripHttpPrefix s = none → VB.parseVideoId s = s) := by
  refine ⟨parseB_idem, fun s hw => ⟨parseA_word s hw, parseB_word s hw⟩,
    fun idl hne hw => ⟨parseA_watch idl hne hw, parseA_youtube idl hne hw,
      parseB_watch idl hne hw, parseB_youtube idl hne hw⟩,
    fun s h1 h2 => ?_, fun s h => ?_⟩
  · unfold VA.parseVideoId
    rw [h1, h2]
  · unfold VB.parseVideoId
    rw [h]

/-- Witness for the amended C9 at a concrete identifier. -/
theorem c9_parse_video_id_amended_witness :
    VA.parseVideoId "https://www.youtube.com/watch?v=dQw4w9WgXcQ".data = "dQw4w9WgXcQ".data ∧
    VB.parseVideoId "https://youtu.be/dQw4w9WgXcQ".data = "dQw4w9WgXcQ".data ∧
    VB.parseVideoId (VB.parseVideoId "?v=?v=x".data) = VB.parseVideoId "?v=?v=x".data := by
  have h := c9_parse_video_id_amended
  refine ⟨?_, ?_, h.1 _⟩
  · have h1 := (h.2.2.1 "dQw4w9WgXcQ".data (by decide) (by decide)).1
    have heq : "https://www.youtube.com/watch?v=".data ++ "dQw4w9WgXcQ".data
        = "https://www.youtube.com/watch?v=dQw4w9WgXcQ".data := by decide
    rw [heq] at h1
    exact h1
  · have h1 := (h.2.2.1 "dQw4w9WgXcQ".data (by decide) (by decide)).2.2.2
    have heq : "https://youtu.be/".data ++ "dQw4w9WgXcQ".data
        = "https://youtu.be/dQw4w9WgXcQ".data := by decide
    rw [heq] at h1
    exact h1

end Proofs
